import Mathlib

/-!
Verification of the cohort-query builder (`src/cohortstore/store.py`) and the
upsert ETL wrapper (`src/etl_wrappers.py`).

The Python code is shallowly embedded: Python strings become `String`
(character lists for the lemmas), Python values passed to `filter(**columns)`
become the inductive `PyVal`, and the mutable builder fields
(`_where_parts`, `_params`, `_select_cols`) become the record `BState`.
A Python call that raises keeps the mutations made before the raise, so the
embedding of `filter` returns the partially-mutated state in its error case.
-/

namespace CohortStore

/-- An atomic Python value (string or integer) as used in filter predicates. -/
inductive PyScalar where
  | str : String → PyScalar
  | int : Int → PyScalar
deriving DecidableEq, Repr

/-- A Python value as it can reach `CohortStore.filter` / `_params`: an atom,
a tuple, or a list.  The code only inspects `isinstance(val, tuple)` and
`len(val)` and never looks inside an element, so one nesting level suffices. -/
inductive PyVal where
  | scalar : PyScalar → PyVal
  | tuple : List PyScalar → PyVal
  | list : List PyScalar → PyVal
deriving DecidableEq, Repr

/-- ASCII lower-casing of one character, embedding Python `str.lower` on the
ASCII identifiers this repository uses. -/
def lowerChar (c : Char) : Char :=
  if 'A' ≤ c ∧ c ≤ 'Z' then Char.ofNat (c.toNat + 32) else c

/-- ASCII upper-casing of one character, embedding Python `str.upper`. -/
def upperChar (c : Char) : Char :=
  if 'a' ≤ c ∧ c ≤ 'z' then Char.ofNat (c.toNat - 32) else c

/-- Embedding of Python `s.lower()`. -/
def pyLower (s : String) : String := ⟨s.data.map lowerChar⟩

/-- Embedding of Python `s.upper()`. -/
def pyUpper (s : String) : String := ⟨s.data.map upperChar⟩

/-- Embedding of Python `str(op)` for the values that can appear as the `op`
slot of a filter tuple: a string renders as itself, an integer as its decimal
text (only membership of the result in `ALLOWED_OPS` is ever observed, and no
numeric rendering is an allowed operator). -/
def pyStr : PyScalar → String
  | .str s => s
  | .int n => toString n

/-- `name.replace('"', '""')`: every double-quote character is doubled. -/
def escQuote : List Char → List Char
  | [] => []
  | c :: rest => if c = '"' then '"' :: '"' :: escQuote rest else c :: escQuote rest

/-- `CohortStore._quote_ident`: `'"' + name.replace('"', '""') + '"'`. -/
def quoteIdent (name : String) : String :=
  ⟨'"' :: (escQuote name.data ++ ['"'])⟩

/-- `CohortStore._ALLOWED_OPS`. -/
def ALLOWED_OPS : List String := [">", ">=", "<", "<=", "=", "!=", "LIKE"]

/-- The study-column candidate list scanned by `CohortStore._detect_study_col`. -/
def STUDY_CANDIDATES : List String := ["Study", "Study Name", "study", "StudyName", "Study_Name"]

/-- The id-column candidate list scanned by `CohortStore.metrics`. -/
def ID_CANDIDATES : List String := ["Image/Patient ID", "Patient ID", "Image ID", "ID"]

/-- `CohortStore._detect_study_col`, applied to the introspected column list:
the first candidate (in candidate order) present in `cols`; `none` embeds the
`RuntimeError` raise. -/
def detectStudyCol (cols : List String) : Option String :=
  STUDY_CANDIDATES.find? (fun c => cols.contains c)

/-- The mutable query-building fields of a `CohortStore` instance:
`_where_parts`, `_params`, `_select_cols`. -/
structure BState where
  where_parts : List String
  params : List PyVal
  select_cols : Option (List String)
deriving DecidableEq, Repr

deriving instance DecidableEq for Except

/-- The fields as `__init__` leaves them (also the result of `reset()`). -/
def initState : BState := ⟨[], [], none⟩

/-- `CohortStore.reset`. -/
def resetState (_st : BState) : BState := ⟨[], [], none⟩

/-- `CohortStore.select_cohort`: appends `f"{quote(study_col)} = ?"` and binds
the cohort name. -/
def selectCohort (study_col : String) (name : PyVal) (st : BState) : BState :=
  { st with
    where_parts := st.where_parts ++ [quoteIdent study_col ++ " = ?"]
    params := st.params ++ [name] }

/-- One `(col, val)` item of a `filter(**columns)` call: a tuple of length
exactly two takes the `(op, value)` branch (validating the upper-cased
operator, `.error` embeds the `ValueError` raise); anything else takes the
equality branch. -/
def filterEntry (st : BState) (col : String) (val : PyVal) : Except Unit BState :=
  let col_q := quoteIdent col
  match val with
  | .tuple [op, v] =>
    let op_u := pyUpper (pyStr op)
    if ALLOWED_OPS.contains op_u then
      .ok { st with
            where_parts := st.where_parts ++ [col_q ++ " " ++ op_u ++ " ?"]
            params := st.params ++ [.scalar v] }
    else
      .error ()
  | _ =>
    .ok { st with
          where_parts := st.where_parts ++ [col_q ++ " = ?"]
          params := st.params ++ [val] }

/-- A whole `filter(**columns)` call over its ordered keyword items.  The
`.error` payload is the state at the moment of the raise: items processed
before the invalid one stay appended, items from the invalid one on are
never reached. -/
def filterCall (st : BState) : List (String × PyVal) → Except BState BState
  | [] => .ok st
  | (c, v) :: rest =>
    match filterEntry st c v with
    | .ok st' => filterCall st' rest
    | .error _ => .error st

/-- Python `"sep".join(parts)`. -/
def joinSep (sep : String) : List String → String
  | [] => ""
  | [x] => x
  | x :: y :: rest => x ++ sep ++ joinSep sep (y :: rest)

/-- Is `needle` a prefix of `haystack` (Boolean, over characters)? -/
def headMatch : List Char → List Char → Bool
  | [], _ => true
  | _ :: _, [] => false
  | a :: xs, b :: ys => a = b && headMatch xs ys

/-- Python `needle in haystack` substring test over characters. -/
def substrB (needle : List Char) : List Char → Bool
  | [] => needle.isEmpty
  | h :: t => headMatch needle (h :: t) || substrB needle t

/-- The local `matches` closure of `CohortStore.metrics`: lower-case the
column name; each non-empty token group must have some lower-cased token
occurring as a substring, an empty group matches everything. -/
def matchesTok (organs kinds : List String) (name : String) : Bool :=
  let n := pyLower name
  let ok_org := if organs.isEmpty then true
                else organs.any (fun o => substrB (pyLower o).data n.data)
  let ok_kind := if kinds.isEmpty then true
                 else kinds.any (fun k => substrB (pyLower k).data n.data)
  ok_org && ok_kind

/-- Spec-level substring relation: the lower-cased token occurs inside the
lower-cased `name`. -/
def TokenOccurs (tok name : String) : Prop :=
  ∃ s t, (pyLower name).data = s ++ (pyLower tok).data ++ t

/-- The `keep` list of `CohortStore.metrics`: columns passing `matches`. -/
def metricsKeep (colnames organs kinds : List String) : List String :=
  colnames.filter (fun c => matchesTok organs kinds c)

/-- The `base_cols` list of `CohortStore.metrics`: the study column when
present, then the first id candidate present and not already in the base. -/
def metricsBase (colnames : List String) (study_col : String) : List String :=
  let base := if colnames.contains study_col then [study_col] else []
  base ++ (ID_CANDIDATES.find? (fun c => colnames.contains c && !base.contains c)).toList

/-- The de-duplication loop of `CohortStore.metrics` (`seen` set, keep first
occurrence). -/
def dedupFirstAux (seen : List String) : List String → List String
  | [] => []
  | c :: rest =>
    if seen.contains c then dedupFirstAux seen rest
    else c :: dedupFirstAux (c :: seen) rest

/-- De-duplicate keeping first occurrences, as `metrics` does. -/
def dedupFirst (l : List String) : List String := dedupFirstAux [] l

/-- The selection `CohortStore.metrics` computes from the introspected
column list. -/
def metricsSelect (colnames : List String) (study_col : String)
    (organs kinds : List String) : List String :=
  dedupFirst (metricsBase colnames study_col ++ metricsKeep colnames organs kinds)

/-- `CohortStore.metrics`: overwrites `_select_cols` with the computed
selection; `_where_parts` and `_params` are untouched. -/
def metrics (colnames : List String) (study_col : String)
    (organs kinds : List String) (st : BState) : BState :=
  { st with select_cols := some (metricsSelect colnames study_col organs kinds) }

/-- `CohortStore._build_sql`: the SQL text and a copy of the parameter list. -/
def buildSql (table : String) (st : BState) : String × List PyVal :=
  let where_sql := if st.where_parts.isEmpty then "1=1" else joinSep " AND " st.where_parts
  let select := match st.select_cols with
    | none => "*"
    | some cols => joinSep ", " (cols.map quoteIdent)
  ("SELECT " ++ select ++ " FROM " ++ quoteIdent table ++ " WHERE " ++ where_sql, st.params)

/-- Placeholder scanner state: count `?` characters that stand outside
double-quoted identifier regions (a `"` toggles the in-quote flag, so the
doubled quotes produced by `quoteIdent` toggle twice and stay inside). -/
def phAux : List Char → Bool → Nat
  | [], _ => 0
  | c :: rest, inq =>
    if c = '"' then phAux rest (!inq)
    else if c = '?' && !inq then phAux rest inq + 1
    else phAux rest inq

/-- The in-quote flag after scanning a character list. -/
def quoteEnd : List Char → Bool → Bool
  | [], inq => inq
  | c :: rest, inq => if c = '"' then quoteEnd rest (!inq) else quoteEnd rest inq

/-- Number of `?` placeholders of a SQL text: `?` characters outside
double-quoted identifiers. -/
def countPlaceholders (s : String) : Nat := phAux s.data false

/-- A well-formed WHERE fragment: exactly one placeholder, balanced quoting. -/
def partWF (w : String) : Prop :=
  phAux w.data false = 1 ∧ quoteEnd w.data false = false

/-- The builder-state invariant behind placeholder/parameter alignment:
as many parameters as WHERE fragments, each fragment holding exactly one
placeholder with balanced quoting. -/
def stateWF (st : BState) : Prop :=
  st.params.length = st.where_parts.length ∧ ∀ w ∈ st.where_parts, partWF w

/-- One builder-mutating call on a `CohortStore` instance.  `metricsOp`
carries the column list the call introspects (introspection is re-queried
per call, so each call may see its own list). -/
inductive Op where
  | reset : Op
  | cohort : PyVal → Op
  | filterOp : List (String × PyVal) → Op
  | metricsOp : List String → List String → List String → Op

/-- The builder state left behind by a whole `filter` call, whether it
returns normally or raises (a raise keeps the mutations made before it). -/
def filterRun (st : BState) (entries : List (String × PyVal)) : BState :=
  match filterCall st entries with
  | .ok st' => st'
  | .error st' => st'

/-- Apply one call to the builder state.  A `filter` call that raises keeps
the partial mutations made before the raise (the exception propagates but the
object keeps them, and the caller may catch and continue). -/
def applyOp (study_col : String) (st : BState) : Op → BState
  | .reset => resetState st
  | .cohort name => selectCohort study_col name st
  | .filterOp entries => filterRun st entries
  | .metricsOp colnames organs kinds => metrics colnames study_col organs kinds st

/-- Run a sequence of builder calls from a state. -/
def runOps (study_col : String) (st : BState) (ops : List Op) : BState :=
  ops.foldl (applyOp study_col) st

/-- Does one `filter` item pass validation (either not an `(op, value)`
tuple, or its upper-cased operator is allowed)? -/
def entryOk : PyVal → Bool
  | .tuple [op, _] => ALLOWED_OPS.contains (pyUpper (pyStr op))
  | _ => true

/-- The success effect of a single accepted `filter` item on the state. -/
def filterOkStep (st : BState) : String × PyVal → BState
  | (c, v) =>
    match filterEntry st c v with
    | .ok st' => st'
    | .error _ => st

section Heap

/-- A tiny heap of Python list objects, to express aliasing facts: cell `r`
holds the list object at reference `r`. -/
structure Heap where
  cells : List (List PyVal)

/-- Read the list object at a reference (out-of-range reads give `[]`). -/
def Heap.read (h : Heap) (r : Nat) : List PyVal := h.cells.getD r []

/-- In-place mutation of the list object at a reference. -/
def Heap.write (h : Heap) (r : Nat) (v : List PyVal) : Heap := ⟨h.cells.set r v⟩

/-- Allocate a fresh list object, returning the new heap and its reference. -/
def Heap.alloc (h : Heap) (v : List PyVal) : Heap × Nat :=
  (⟨h.cells ++ [v]⟩, h.cells.length)

/-- `CohortStore._build_sql` with the `_params` list held behind reference
`rp` on the heap: builds the SQL text from the (immutable) string fields and
returns `list(self._params)` as a freshly allocated copy. -/
def buildSqlHeap (table : String) (where_parts : List String)
    (select_cols : Option (List String)) (h : Heap) (rp : Nat) :
    Heap × Nat × String :=
  let where_sql := if where_parts.isEmpty then "1=1" else joinSep " AND " where_parts
  let select := match select_cols with
    | none => "*"
    | some cols => joinSep ", " (cols.map quoteIdent)
  let sql := "SELECT " ++ select ++ " FROM " ++ quoteIdent table ++ " WHERE " ++ where_sql
  let (h', r') := h.alloc (h.read rp)
  (h', r', sql)

end Heap

end CohortStore

namespace EtlWrappers

open CohortStore (PyVal)

/-- A table row: ordered column/value pairs, as the CSV/DataFrame rows that
`upsert_rows_from_csv` moves around. -/
def Row : Type := List (String × PyVal)

instance : DecidableEq Row := by unfold Row; infer_instance

/-- The per-column condition `t."c" = i."c"` of the generated DELETE: both
rows carry column `c` and the values are equal (a missing/NULL side makes
the SQL comparison not-true, hence `false`). -/
def colEq (c : String) (t i : Row) : Bool :=
  match List.lookup c t, List.lookup c i with
  | some a, some b => a = b
  | _, _ => false

/-- The conjunctive key condition of the DELETE over the configured
identifier columns. -/
def keyMatch (id_cols : List String) (t i : Row) : Bool :=
  id_cols.all (fun c => colEq c t i)

/-- The default identifier columns of `upsert_rows_from_csv`. -/
def DEFAULT_ID_COLS : List String := ["Image/Patient ID", "Study Name"]

/-- `upsert_rows_from_csv` on an existing table: DELETE every stored row
whose key columns match some incoming row, then INSERT all incoming rows. -/
def upsertRows (id_cols : List String) (tbl incoming : List Row) : List Row :=
  tbl.filter (fun t => !(incoming.any (fun i => keyMatch id_cols t i))) ++ incoming

end EtlWrappers

namespace CohortStore

theorem strData_append (a b : String) : (a ++ b).data = a.data ++ b.data := rfl

theorem phAux_append : ∀ (a b : List Char) (q : Bool),
    phAux (a ++ b) q = phAux a q + phAux b (quoteEnd a q)
  | [], b, q => by simp [phAux, quoteEnd]
  | c :: rest, b, q => by
    simp only [List.cons_append, List.append_eq, phAux, quoteEnd]
    by_cases hc : c = '"'
    · simp only [if_pos hc]
      exact phAux_append rest b (!q)
    · simp only [if_neg hc]
      by_cases hq : (c = '?' && !q) = true
      · simp only [if_pos hq]
        rw [phAux_append rest b q]
        omega
      · simp only [if_neg hq]
        exact phAux_append rest b q

theorem quoteEnd_append : ∀ (a b : List Char) (q : Bool),
    quoteEnd (a ++ b) q = quoteEnd b (quoteEnd a q)
  | [], _, _ => rfl
  | c :: rest, b, q => by
    by_cases hc : c = '"' <;>
      simp [quoteEnd, hc, quoteEnd_append rest b]

theorem phAux_escQuote : ∀ l : List Char, phAux (escQuote l) true = 0
  | [] => rfl
  | c :: rest => by
    by_cases hc : c = '"' <;>
      simp [escQuote, phAux, hc, phAux_escQuote rest]

theorem quoteEnd_escQuote : ∀ l : List Char, quoteEnd (escQuote l) true = true
  | [] => rfl
  | c :: rest => by
    by_cases hc : c = '"' <;>
      simp [escQuote, quoteEnd, hc, quoteEnd_escQuote rest]

theorem quoteIdent_data (s : String) :
    (quoteIdent s).data = '"' :: (escQuote s.data ++ ['"']) := rfl

theorem phAux_quoteIdent (s : String) : phAux (quoteIdent s).data false = 0 := by
  rw [quoteIdent_data]
  simp [phAux, phAux_append, phAux_escQuote, quoteEnd_escQuote]

theorem quoteEnd_quoteIdent (s : String) : quoteEnd (quoteIdent s).data false = false := by
  rw [quoteIdent_data]
  simp [quoteEnd, quoteEnd_append, quoteEnd_escQuote]

theorem partWF_eqFragment (col : String) : partWF (quoteIdent col ++ " = ?") := by
  constructor
  · rw [strData_append, phAux_append, phAux_quoteIdent, quoteEnd_quoteIdent]
    decide
  · rw [strData_append, quoteEnd_append, quoteEnd_quoteIdent]
    decide

theorem allowedOp_wf : ∀ op ∈ ALLOWED_OPS,
    phAux op.data false = 0 ∧ quoteEnd op.data false = false := by decide

theorem partWF_cmpFragment (col op : String) (hop : op ∈ ALLOWED_OPS) :
    partWF (quoteIdent col ++ " " ++ op ++ " ?") := by
  obtain ⟨h1, h2⟩ := allowedOp_wf op hop
  have eA : phAux (" " : String).data false = 0 := by decide
  have eB : quoteEnd (" " : String).data false = false := by decide
  have eC : phAux (" ?" : String).data false = 1 := by decide
  have eD : quoteEnd (" ?" : String).data false = false := by decide
  constructor
  · simp only [strData_append, phAux_append, quoteEnd_append, phAux_quoteIdent,
      quoteEnd_quoteIdent, eA, eB, h1, h2, eC]
  · simp only [strData_append, quoteEnd_append, quoteEnd_quoteIdent, eB, h2, eD]

theorem joinSep_single (sep x : String) : joinSep sep [x] = x := rfl

theorem joinSep_cons₂ (sep x y : String) (rest : List String) :
    joinSep sep (x :: y :: rest) = x ++ sep ++ joinSep sep (y :: rest) := rfl

theorem joinSep_where_wf : ∀ parts : List String, (∀ w ∈ parts, partWF w) →
    phAux (joinSep " AND " parts).data false = parts.length ∧
      quoteEnd (joinSep " AND " parts).data false = false
  | [], _ => by constructor <;> rfl
  | [x], h => by
    obtain ⟨h1, h2⟩ := h x (by simp)
    rw [joinSep_single]
    exact ⟨by simpa using h1, h2⟩
  | x :: y :: rest, h => by
    obtain ⟨h1, h2⟩ := h x (by simp)
    obtain ⟨ih1, ih2⟩ := joinSep_where_wf (y :: rest) (fun w hw => h w (List.mem_cons_of_mem x hw))
    have eA : phAux (" AND " : String).data false = 0 := by decide
    have eB : quoteEnd (" AND " : String).data false = false := by decide
    rw [joinSep_cons₂]
    constructor
    · simp only [strData_append, phAux_append, quoteEnd_append, h1, h2, eA, eB, ih1,
        List.length_cons]
      omega
    · simp only [strData_append, quoteEnd_append, h2, eB, ih2]

theorem joinSep_select_wf : ∀ cols : List String,
    phAux (joinSep ", " (cols.map quoteIdent)).data false = 0 ∧
      quoteEnd (joinSep ", " (cols.map quoteIdent)).data false = false
  | [] => by constructor <;> rfl
  | [c] => by
    rw [List.map_cons, List.map_nil, joinSep_single]
    exact ⟨phAux_quoteIdent c, quoteEnd_quoteIdent c⟩
  | c :: d :: rest => by
    obtain ⟨ih1, ih2⟩ := joinSep_select_wf (d :: rest)
    simp only [List.map_cons] at ih1 ih2
    have eA : phAux (", " : String).data false = 0 := by decide
    have eB : quoteEnd (", " : String).data false = false := by decide
    rw [List.map_cons, List.map_cons, joinSep_cons₂]
    constructor
    · simp only [strData_append, phAux_append, quoteEnd_append, phAux_quoteIdent,
        quoteEnd_quoteIdent, eA, eB, ih1]
    · simp only [strData_append, quoteEnd_append, quoteEnd_quoteIdent, eB, ih2]

theorem countPlaceholders_sql (sel ws table : String)
    (h1 : phAux sel.data false = 0) (h2 : quoteEnd sel.data false = false) :
    countPlaceholders ("SELECT " ++ sel ++ " FROM " ++ quoteIdent table ++ " WHERE " ++ ws)
      = phAux ws.data false := by
  have eS : phAux ("SELECT " : String).data false = 0 := by decide
  have eSe : quoteEnd ("SELECT " : String).data false = false := by decide
  have eF : phAux (" FROM " : String).data false = 0 := by decide
  have eFe : quoteEnd (" FROM " : String).data false = false := by decide
  have eW : phAux (" WHERE " : String).data false = 0 := by decide
  have eWe : quoteEnd (" WHERE " : String).data false = false := by decide
  rw [countPlaceholders]
  simp only [strData_append, phAux_append, quoteEnd_append, phAux_quoteIdent,
    quoteEnd_quoteIdent, eS, eSe, eF, eFe, eW, eWe, h1, h2]
  omega

theorem stateWF_init : stateWF initState :=
  ⟨rfl, fun _ hw => absurd hw (List.not_mem_nil _)⟩

theorem stateWF_reset (st : BState) : stateWF (resetState st) := stateWF_init

theorem stateWF_snoc (st : BState) (w : String) (p : PyVal) (hw : partWF w)
    (h : stateWF st) :
    stateWF ⟨st.where_parts ++ [w], st.params ++ [p], st.select_cols⟩ := by
  obtain ⟨hlen, hparts⟩ := h
  refine ⟨by simp [hlen], fun x hx => ?_⟩
  rcases List.mem_append.mp hx with hx | hx
  · exact hparts x hx
  · rcases List.mem_singleton.mp hx with rfl
    exact hw

theorem stateWF_selectCohort (study_col : String) (name : PyVal) (st : BState)
    (h : stateWF st) : stateWF (selectCohort study_col name st) :=
  stateWF_snoc st _ name (partWF_eqFragment study_col) h

theorem filterEntry_tuple2 (st : BState) (col : String) (op v : PyScalar) :
    filterEntry st col (.tuple [op, v]) =
      if ALLOWED_OPS.contains (pyUpper (pyStr op)) then
        .ok ⟨st.where_parts ++ [quoteIdent col ++ " " ++ pyUpper (pyStr op) ++ " ?"],
             st.params ++ [.scalar v], st.select_cols⟩
      else .error () := rfl

theorem filterEntry_default (st : BState) (col : String) (val : PyVal)
    (h : ∀ op v, val ≠ PyVal.tuple [op, v]) :
    filterEntry st col val =
      .ok ⟨st.where_parts ++ [quoteIdent col ++ " = ?"],
           st.params ++ [val], st.select_cols⟩ := by
  match val with
  | .scalar a => rfl
  | .list l => rfl
  | .tuple [] => rfl
  | .tuple [a] => rfl
  | .tuple [a, b] => exact absurd rfl (h a b)
  | .tuple (a :: b :: c :: rest) => rfl

theorem stateWF_filterEntry (st st' : BState) (col : String) (val : PyVal)
    (h : stateWF st) (hok : filterEntry st col val = .ok st') : stateWF st' := by
  by_cases htup : ∃ op v, val = PyVal.tuple [op, v]
  · obtain ⟨op, v, rfl⟩ := htup
    rw [filterEntry_tuple2] at hok
    by_cases hcon : ALLOWED_OPS.contains (pyUpper (pyStr op)) = true
    · rw [if_pos hcon] at hok
      cases hok
      exact stateWF_snoc st _ _ (partWF_cmpFragment col _ (by simpa using hcon)) h
    · rw [if_neg hcon] at hok
      exact Except.noConfusion hok
  · push_neg at htup
    rw [filterEntry_default st col val htup] at hok
    cases hok
    exact stateWF_snoc st _ _ (partWF_eqFragment col) h

theorem filterRun_nil (st : BState) : filterRun st [] = st := rfl

theorem filterRun_cons_ok (st st' : BState) (c : String) (v : PyVal)
    (rest : List (String × PyVal)) (hfe : filterEntry st c v = .ok st') :
    filterRun st ((c, v) :: rest) = filterRun st' rest := by
  simp only [filterRun, filterCall, hfe]

theorem filterRun_cons_err (st : BState) (c : String) (v : PyVal)
    (rest : List (String × PyVal)) (e : Unit) (hfe : filterEntry st c v = .error e) :
    filterRun st ((c, v) :: rest) = st := by
  simp only [filterRun, filterCall, hfe]

theorem stateWF_filterRun : ∀ (entries : List (String × PyVal)) (st : BState),
    stateWF st → stateWF (filterRun st entries)
  | [], _, h => h
  | (c, v) :: rest, st, h => by
    cases hfe : filterEntry st c v with
    | ok st' =>
      rw [filterRun_cons_ok st st' c v rest hfe]
      exact stateWF_filterRun rest st' (stateWF_filterEntry st st' c v h hfe)
    | error e =>
      rw [filterRun_cons_err st c v rest e hfe]
      exact h

theorem stateWF_metrics (colnames : List String) (study_col : String)
    (organs kinds : List String) (st : BState) (h : stateWF st) :
    stateWF (metrics colnames study_col organs kinds st) := h

theorem stateWF_applyOp (study_col : String) (st : BState) (op : Op)
    (h : stateWF st) : stateWF (applyOp study_col st op) := by
  cases op with
  | reset => exact stateWF_reset st
  | cohort name => exact stateWF_selectCohort study_col name st h
  | filterOp entries => exact stateWF_filterRun entries st h
  | metricsOp colnames organs kinds =>
    exact stateWF_metrics colnames study_col organs kinds st h

theorem stateWF_runOps (study_col : String) : ∀ (ops : List Op) (st : BState),
    stateWF st → stateWF (runOps study_col st ops)
  | [], _, h => h
  | op :: rest, st, h =>
    stateWF_runOps study_col rest (applyOp study_col st op)
      (stateWF_applyOp study_col st op h)

theorem buildSql_count (table : String) (st : BState) (h : stateWF st) :
    countPlaceholders (buildSql table st).1 = (buildSql table st).2.length := by
  obtain ⟨wp, ps, sc⟩ := st
  obtain ⟨hlen, hparts⟩ := h
  have hstar1 : phAux ("*" : String).data false = 0 := by decide
  have hstar2 : quoteEnd ("*" : String).data false = false := by decide
  have hone1 : phAux ("1=1" : String).data false = 0 := by decide
  cases sc with
  | none =>
    cases wp with
    | nil =>
      show countPlaceholders
        ("SELECT " ++ "*" ++ " FROM " ++ quoteIdent table ++ " WHERE " ++ "1=1") = ps.length
      rw [countPlaceholders_sql _ _ _ hstar1 hstar2, hone1]
      simpa using hlen.symm
    | cons w ws =>
      show countPlaceholders ("SELECT " ++ "*" ++ " FROM " ++ quoteIdent table ++ " WHERE "
        ++ joinSep " AND " (w :: ws)) = ps.length
      rw [countPlaceholders_sql _ _ _ hstar1 hstar2,
        (joinSep_where_wf (w :: ws) hparts).1]
      exact hlen.symm
  | some cols =>
    obtain ⟨s1, s2⟩ := joinSep_select_wf cols
    cases wp with
    | nil =>
      show countPlaceholders ("SELECT " ++ joinSep ", " (cols.map quoteIdent) ++ " FROM "
        ++ quoteIdent table ++ " WHERE " ++ "1=1") = ps.length
      rw [countPlaceholders_sql _ _ _ s1 s2, hone1]
      simpa using hlen.symm
    | cons w ws =>
      show countPlaceholders ("SELECT " ++ joinSep ", " (cols.map quoteIdent) ++ " FROM "
        ++ quoteIdent table ++ " WHERE " ++ joinSep " AND " (w :: ws)) = ps.length
      rw [countPlaceholders_sql _ _ _ s1 s2, (joinSep_where_wf (w :: ws) hparts).1]
      exact hlen.symm

theorem headMatch_iff : ∀ (n h : List Char), headMatch n h = true ↔ ∃ t, h = n ++ t
  | [], h => by simp [headMatch]
  | a :: xs, [] => by simp [headMatch]
  | a :: xs, b :: ys => by
    simp only [headMatch, Bool.and_eq_true, decide_eq_true_eq]
    constructor
    · rintro ⟨rfl, hm⟩
      obtain ⟨t, rfl⟩ := (headMatch_iff xs ys).mp hm
      exact ⟨t, rfl⟩
    · rintro ⟨t, ht⟩
      rw [List.cons_append] at ht
      injection ht with h1 h2
      exact ⟨h1.symm, (headMatch_iff xs ys).mpr ⟨t, h2⟩⟩

theorem substrB_iff : ∀ (n h : List Char), substrB n h = true ↔ ∃ s t, h = s ++ n ++ t
  | n, [] => by
    constructor
    · intro he
      have hn : n = [] := by simpa [substrB, List.isEmpty_iff] using he
      exact ⟨[], [], by simp [hn]⟩
    · rintro ⟨s, t, ht⟩
      have h1 : s ++ n ++ t = [] := ht.symm
      rw [List.append_eq_nil, List.append_eq_nil] at h1
      simp [substrB, List.isEmpty_iff, h1.1.2]
  | n, c :: h' => by
    simp only [substrB, Bool.or_eq_true]
    rw [headMatch_iff, substrB_iff n h']
    constructor
    · rintro (⟨t, ht⟩ | ⟨s, t, rfl⟩)
      · exact ⟨[], t, by simpa using ht⟩
      · exact ⟨c :: s, t, rfl⟩
    · rintro ⟨s, t, hst⟩
      cases s with
      | nil => exact Or.inl ⟨t, by simpa using hst⟩
      | cons s0 s' =>
        rw [List.cons_append, List.cons_append] at hst
        injection hst with h1 h2
        exact Or.inr ⟨s', t, h2⟩

theorem tokenGroup_iff (toks : List String) (n : String) :
    (if toks.isEmpty then true
     else toks.any (fun o => substrB (pyLower o).data (pyLower n).data)) = true
      ↔ (toks = [] ∨ ∃ o ∈ toks, TokenOccurs o n) := by
  by_cases he : toks.isEmpty
  · have hnil : toks = [] := by simpa [List.isEmpty_iff] using he
    simp [he, hnil]
  · have hne : toks ≠ [] := by simpa [List.isEmpty_iff] using he
    rw [if_neg he]
    simp only [List.any_eq_true, substrB_iff, TokenOccurs]
    constructor
    · rintro ⟨o, ho, hs⟩
      exact Or.inr ⟨o, ho, hs⟩
    · rintro (h | ⟨o, ho, hs⟩)
      · exact absurd h hne
      · exact ⟨o, ho, hs⟩

theorem matchesTok_iff (organs kinds : List String) (name : String) :
    matchesTok organs kinds name = true ↔
      ((organs = [] ∨ ∃ o ∈ organs, TokenOccurs o name) ∧
       (kinds = [] ∨ ∃ k ∈ kinds, TokenOccurs k name)) := by
  rw [matchesTok]
  simp only [Bool.and_eq_true]
  rw [tokenGroup_iff, tokenGroup_iff]

theorem metricsKeep_mem (colnames organs kinds : List String) (c : String) :
    c ∈ metricsKeep colnames organs kinds ↔
      c ∈ colnames ∧ ((organs = [] ∨ ∃ o ∈ organs, TokenOccurs o c) ∧
        (kinds = [] ∨ ∃ k ∈ kinds, TokenOccurs k c)) := by
  rw [metricsKeep, List.mem_filter, matchesTok_iff]

theorem dedupFirstAux_mem : ∀ (seen l : List String) (x : String),
    x ∈ dedupFirstAux seen l ↔ x ∈ l ∧ x ∉ seen
  | seen, [], x => by simp [dedupFirstAux]
  | seen, c :: rest, x => by
    by_cases hc : seen.contains c = true
    · have hcm : c ∈ seen := by simpa using hc
      rw [dedupFirstAux, if_pos hc, dedupFirstAux_mem seen rest x]
      constructor
      · rintro ⟨hx, hns⟩
        exact ⟨List.mem_cons_of_mem c hx, hns⟩
      · rintro ⟨hx, hns⟩
        rcases List.mem_cons.mp hx with rfl | hx
        · exact absurd hcm hns
        · exact ⟨hx, hns⟩
    · have hcm : c ∉ seen := by simpa using hc
      rw [dedupFirstAux, if_neg hc, List.mem_cons, dedupFirstAux_mem (c :: seen) rest x]
      constructor
      · rintro (rfl | ⟨hx, hns⟩)
        · exact ⟨List.mem_cons_self _ _, hcm⟩
        · exact ⟨List.mem_cons_of_mem c hx, fun h => hns (List.mem_cons_of_mem c h)⟩
      · rintro ⟨hx, hns⟩
        by_cases hxc : x = c
        · exact Or.inl hxc
        · rcases List.mem_cons.mp hx with rfl | hx
          · exact Or.inl rfl
          · refine Or.inr ⟨hx, fun hmem => ?_⟩
            rcases List.mem_cons.mp hmem with h | h
            · exact hxc h
            · exact hns h

theorem dedupFirstAux_nodup : ∀ (seen l : List String), (dedupFirstAux seen l).Nodup
  | _, [] => List.nodup_nil
  | seen, c :: rest => by
    by_cases hc : seen.contains c = true
    · rw [dedupFirstAux, if_pos hc]
      exact dedupFirstAux_nodup seen rest
    · rw [dedupFirstAux, if_neg hc]
      refine List.nodup_cons.mpr ⟨fun hmem => ?_, dedupFirstAux_nodup (c :: seen) rest⟩
      exact ((dedupFirstAux_mem (c :: seen) rest c).mp hmem).2 (List.mem_cons_self c seen)

theorem dedupFirstAux_sublist : ∀ (seen l : List String), (dedupFirstAux seen l).Sublist l
  | _, [] => List.Sublist.refl []
  | seen, c :: rest => by
    by_cases hc : seen.contains c = true
    · rw [dedupFirstAux, if_pos hc]
      exact List.Sublist.cons c (dedupFirstAux_sublist seen rest)
    · rw [dedupFirstAux, if_neg hc]
      exact List.Sublist.cons₂ c (dedupFirstAux_sublist (c :: seen) rest)

theorem dedupFirstAux_append_nodup : ∀ (base seen keep : List String),
    base.Nodup → (∀ x ∈ base, x ∉ seen) →
    ∃ t, dedupFirstAux seen (base ++ keep) = base ++ t
  | [], seen, keep, _, _ => ⟨dedupFirstAux seen keep, by simp⟩
  | c :: rest, seen, keep, hnd, hdisj => by
    have hc : ¬ (seen.contains c = true) := by
      simpa using hdisj c (List.mem_cons_self c rest)
    rw [List.cons_append, dedupFirstAux, if_neg hc]
    obtain ⟨t, ht⟩ := dedupFirstAux_append_nodup rest (c :: seen) keep
      (List.nodup_cons.mp hnd).2
      (fun x hx hmem => by
        rcases List.mem_cons.mp hmem with rfl | hmem
        · exact (List.nodup_cons.mp hnd).1 hx
        · exact hdisj x (List.mem_cons_of_mem c hx) hmem)
    exact ⟨t, by rw [ht, List.cons_append]⟩

theorem metricsBase_nodup (colnames : List String) (study_col : String) :
    (metricsBase colnames study_col).Nodup := by
  simp only [metricsBase]
  by_cases hsc : colnames.contains study_col = true
  · simp only [if_pos hsc]
    cases hf : ID_CANDIDATES.find? (fun c => colnames.contains c && !([study_col].contains c)) with
    | none => simp
    | some c =>
      have hp := List.find?_some hf
      simp only [Bool.and_eq_true, Bool.not_eq_true'] at hp
      have hne : study_col ≠ c := by
        intro h
        subst h
        simp at hp
      simp [Option.toList, hne]
  · simp only [if_neg hsc]
    cases hf : ID_CANDIDATES.find? (fun c => colnames.contains c && !(List.contains [] c)) with
    | none => simp
    | some c => simp [Option.toList]

theorem metricsSelect_base_first (colnames : List String) (study_col : String)
    (organs kinds : List String) :
    ∃ t, metricsSelect colnames study_col organs kinds
      = metricsBase colnames study_col ++ t := by
  rw [metricsSelect, dedupFirst]
  exact dedupFirstAux_append_nodup (metricsBase colnames study_col) []
    (metricsKeep colnames organs kinds) (metricsBase_nodup colnames study_col) (by simp)

theorem find?_split {α : Type} (p : α → Bool) : ∀ (l : List α) (c : α),
    l.find? p = some c →
      ∃ pre post, l = pre ++ c :: post ∧ p c = true ∧ ∀ d ∈ pre, p d = false
  | [], c, h => by simp [List.find?] at h
  | a :: rest, c, h => by
    by_cases ha : p a = true
    · rw [List.find?_cons_of_pos _ ha] at h
      cases h
      exact ⟨[], rest, rfl, ha, by simp⟩
    · rw [List.find?_cons_of_neg _ (by simpa using ha)] at h
      obtain ⟨pre, post, rfl, hc, hpre⟩ := find?_split p rest c h
      refine ⟨a :: pre, post, rfl, hc, fun d hd => ?_⟩
      rcases List.mem_cons.mp hd with rfl | hd
      · simpa using ha
      · exact hpre d hd

theorem find?_congr {α : Type} (p q : α → Bool) : ∀ l : List α,
    (∀ a ∈ l, p a = q a) → l.find? p = l.find? q
  | [], _ => rfl
  | a :: rest, h => by
    have ha := h a (List.mem_cons_self a rest)
    by_cases hp : p a = true
    · rw [List.find?_cons_of_pos _ hp, List.find?_cons_of_pos _ (ha ▸ hp)]
    · have hq : ¬ (q a = true) := ha ▸ hp
      rw [List.find?_cons_of_neg _ (by simpa using hp),
        List.find?_cons_of_neg _ (by simpa using hq)]
      exact find?_congr p q rest (fun x hx => h x (List.mem_cons_of_mem a hx))

theorem heap_read_alloc (h : Heap) (v : List PyVal) :
    (h.alloc v).1.read (h.alloc v).2 = v := by
  show ((h.cells ++ [v]).getD h.cells.length []) = v
  rw [List.getD_eq_getElem?_getD, List.getElem?_concat_length]
  rfl

theorem heap_read_alloc_preserve (h : Heap) (v : List PyVal) (r : Nat)
    (hr : r < h.cells.length) : (h.alloc v).1.read r = h.read r := by
  show ((h.cells ++ [v]).getD r []) = h.cells.getD r []
  rw [List.getD_eq_getElem?_getD, List.getD_eq_getElem?_getD, List.getElem?_append_left hr]

theorem heap_read_write_ne (h : Heap) (r r' : Nat) (v : List PyVal) (hne : r ≠ r') :
    (h.write r v).read r' = h.read r' := by
  show ((h.cells.set r v).getD r' []) = h.cells.getD r' []
  rw [List.getD_eq_getElem?_getD, List.getD_eq_getElem?_getD, List.getElem?_set_ne hne]

theorem escQuote_eq_flatten : ∀ l : List Char,
    escQuote l = (l.map (fun c => if c = '"' then ['"', '"'] else [c])).flatten
  | [] => rfl
  | c :: rest => by
    by_cases hc : c = '"' <;>
      simp [escQuote, hc, escQuote_eq_flatten rest]

theorem filterCall_nil (st : BState) : filterCall st [] = .ok st := rfl

theorem filterCall_cons (st : BState) (c : String) (v : PyVal)
    (rest : List (String × PyVal)) :
    filterCall st ((c, v) :: rest) =
      match filterEntry st c v with
      | .ok st' => filterCall st' rest
      | .error _ => .error st := rfl

theorem filterEntry_of_entryOk (st : BState) (c : String) (v : PyVal)
    (h : entryOk v = true) :
    filterEntry st c v = .ok (filterOkStep st (c, v)) := by
  by_cases htup : ∃ op w, v = PyVal.tuple [op, w]
  · obtain ⟨op, w, rfl⟩ := htup
    have hcon : ALLOWED_OPS.contains (pyUpper (pyStr op)) = true := by
      simpa [entryOk] using h
    rw [filterOkStep, filterEntry_tuple2, if_pos hcon]
  · push_neg at htup
    rw [filterOkStep, filterEntry_default st c v htup]

end CohortStore

namespace EtlWrappers

theorem keyMatch_trans (id_cols : List String) (r n k : Row)
    (hrk : keyMatch id_cols r k = true) (hnk : keyMatch id_cols n k = true) :
    keyMatch id_cols r n = true := by
  simp only [keyMatch, List.all_eq_true] at hrk hnk ⊢
  intro c hc
  have h1 := hrk c hc
  have h2 := hnk c hc
  cases hr : List.lookup c r <;> cases hk : List.lookup c k <;>
    cases hn : List.lookup c n <;> simp_all [colEq]

end EtlWrappers

namespace CohortStore

/-- C1 (corrected), counterexample to the original claim: a `filter` call
passing two column predicates, the second with an unsupported operator,
raises but leaves the first predicate's clause and parameter appended — the
state after the failing call is not the pre-call state. -/
theorem filter_multi_invalid_cex :
    filterCall initState
        [("A", PyVal.scalar (PyScalar.str "x")), ("B", PyVal.tuple [PyScalar.str "~", PyScalar.int 5])]
      = .error ⟨[quoteIdent "A" ++ " = ?"], [PyVal.scalar (PyScalar.str "x")], none⟩ ∧
    (⟨[quoteIdent "A" ++ " = ?"], [PyVal.scalar (PyScalar.str "x")], none⟩ : BState) ≠ initState := by
  constructor
  · decide
  · decide

/-- C1 (amended): a `filter` call whose first invalid `(op, value)`
comparison comes after `pre` accepted predicates fails with the
`ValueError`/`ValidationError` raise, with exactly the predicates before the
invalid one appended and nothing from the invalid one onward; the state is
exactly unchanged precisely when the invalid comparison is the first
predicate processed (`pre = []`). -/
theorem filter_invalid_op_partial : ∀ (pre : List (String × PyVal)) (st : BState)
    (rest : List (String × PyVal)) (c : String) (op v : PyScalar),
    (∀ e ∈ pre, entryOk e.2 = true) →
    ALLOWED_OPS.contains (pyUpper (pyStr op)) = false →
    filterCall st (pre ++ (c, PyVal.tuple [op, v]) :: rest)
      = .error (pre.foldl filterOkStep st)
  | [], st, rest, c, op, v, _, hop => by
    have hop' : ¬ (ALLOWED_OPS.contains (pyUpper (pyStr op)) = true) := by
      rw [hop]
      exact Bool.false_ne_true
    rw [List.nil_append, filterCall_cons, filterEntry_tuple2, if_neg hop']
    rfl
  | (ec, ev) :: pre', st, rest, c, op, v, hpre, hop => by
    have hok : filterEntry st ec ev = .ok (filterOkStep st (ec, ev)) :=
      filterEntry_of_entryOk st ec ev (hpre (ec, ev) (List.mem_cons_self _ _))
    rw [List.cons_append, filterCall_cons, hok, List.foldl_cons]
    exact filter_invalid_op_partial pre' (filterOkStep st (ec, ev)) rest c op v
      (fun x hx => hpre x (List.mem_cons_of_mem _ hx)) hop

/-- Witness for C1 (amended) at a concrete call: one accepted equality
predicate before the invalid comparison stays appended, the rest is dropped. -/
theorem filter_invalid_op_partial_witness :
    filterCall initState
        [("Sex", PyVal.scalar (PyScalar.str "f")),
         ("Age", PyVal.tuple [PyScalar.str "~", PyScalar.int 70]),
         ("Height", PyVal.scalar (PyScalar.int 1))]
      = .error ⟨[quoteIdent "Sex" ++ " = ?"], [PyVal.scalar (PyScalar.str "f")], none⟩ := by
  have h := filter_invalid_op_partial [("Sex", PyVal.scalar (PyScalar.str "f"))] initState
    [("Height", PyVal.scalar (PyScalar.int 1))] "Age" (PyScalar.str "~") (PyScalar.int 70)
    (by decide) (by decide)
  exact h.trans (by decide)

/-- C2: `metrics` keeps exactly the columns whose lower-cased name contains
some lower-cased organ token (or the organ list is empty) and some
lower-cased kind token (or the kind list is empty); the selection prepends
the `base_cols` (study column, then first present id candidate); and the
spec's concrete example selects exactly
`["Study", "ID", "Liver Volume", "Liver SUVMean"]` in that order. -/
theorem metrics_token_selection :
    (∀ colnames organs kinds c, c ∈ metricsKeep colnames organs kinds ↔
        c ∈ colnames ∧ ((organs = [] ∨ ∃ o ∈ organs, TokenOccurs o c) ∧
          (kinds = [] ∨ ∃ k ∈ kinds, TokenOccurs k c))) ∧
    (∀ colnames study_col organs kinds, ∃ t,
        metricsSelect colnames study_col organs kinds
          = metricsBase colnames study_col ++ t) ∧
    metricsSelect ["Study", "ID", "Liver Volume", "Liver SUVMean", "Kidney Volume", "Notes"]
        "Study" ["Liver"] ["Volume", "SUVMean"]
      = ["Study", "ID", "Liver Volume", "Liver SUVMean"] :=
  ⟨metricsKeep_mem, metricsSelect_base_first, by decide⟩

/-- C3: after any sequence of reset / select_cohort / filter / metrics calls
starting from a fresh builder, `build()` returns as many parameters as there
are `?` placeholders in the SQL text (placeholders counted outside quoted
identifiers, which is what the backing store binds positionally). -/
theorem build_placeholder_param_aligned (study_col table : String) (ops : List Op) :
    countPlaceholders (buildSql table (runOps study_col initState ops)).1
      = (buildSql table (runOps study_col initState ops)).2.length :=
  buildSql_count table _ (stateWF_runOps study_col ops initState stateWF_init)

/-- C4: study-column detection returns the first candidate of the fixed
priority list present in the column list — it depends only on membership in
the column list, not on its order — and returns `none` (the `SchemaError`
raise) exactly when no candidate is present. -/
theorem detect_study_col_priority (cols cols' : List String)
    (hmem : ∀ c, c ∈ cols ↔ c ∈ cols') :
    detectStudyCol cols = detectStudyCol cols' ∧
    (detectStudyCol cols = none ↔ ∀ c ∈ STUDY_CANDIDATES, c ∉ cols) ∧
    (∀ c, detectStudyCol cols = some c →
      c ∈ cols ∧ ∃ pre post, STUDY_CANDIDATES = pre ++ c :: post ∧ ∀ d ∈ pre, d ∉ cols) := by
  refine ⟨?_, ?_, ?_⟩
  · rw [detectStudyCol, detectStudyCol]
    apply find?_congr
    intro a _
    by_cases h : a ∈ cols
    · simp [h, (hmem a).mp h]
    · have h' : a ∉ cols' := fun hc => h ((hmem a).mpr hc)
      simp [h, h']
  · rw [detectStudyCol, List.find?_eq_none]
    constructor
    · intro h c hc hmemc
      have := h c hc
      simp [hmemc] at this
    · intro h c hc
      simp [h c hc]
  · intro c hc
    obtain ⟨pre, post, heq, hpc, hpre⟩ := find?_split _ STUDY_CANDIDATES c hc
    refine ⟨by simpa using hpc, pre, post, heq, fun d hd => ?_⟩
    simpa using hpre d hd

/-- Witness for C4: two membership-equal column lists in opposite order give
the same result, namely the higher-priority candidate even though the other
candidate appears first in one list. -/
theorem detect_study_col_priority_witness :
    detectStudyCol ["StudyName", "Study Name"] = detectStudyCol ["Study Name", "StudyName"] ∧
    detectStudyCol ["StudyName", "Study Name"] = some "Study Name" := by
  have hmem : ∀ c, c ∈ (["StudyName", "Study Name"] : List String)
      ↔ c ∈ (["Study Name", "StudyName"] : List String) := by
    intro c
    constructor <;> intro h <;> rcases List.mem_cons.mp h with rfl | h <;>
      simp_all [List.mem_cons]
  exact ⟨(detect_study_col_priority _ _ hmem).1, by decide⟩

/-- C5: every `metrics` call stores a duplicate-free selection that is a
subsequence of `base_cols ++ keep` (first occurrences, in order) containing
exactly the members of `base_cols ++ keep`; and a second `metrics` call
overwrites the previous selection entirely (the state equals the one from a
single call). -/
theorem metrics_selection_invariants (colnames colnames' : List String)
    (study_col : String) (organs kinds organs' kinds' : List String) (st : BState) :
    (metrics colnames study_col organs kinds st).select_cols
        = some (metricsSelect colnames study_col organs kinds) ∧
    (metricsSelect colnames study_col organs kinds).Nodup ∧
    List.Sublist (metricsSelect colnames study_col organs kinds)
        (metricsBase colnames study_col ++ metricsKeep colnames organs kinds) ∧
    (∀ c, c ∈ metricsSelect colnames study_col organs kinds ↔
        c ∈ metricsBase colnames study_col ++ metricsKeep colnames organs kinds) ∧
    metrics colnames study_col organs kinds (metrics colnames' study_col organs' kinds' st)
        = metrics colnames study_col organs kinds st := by
  refine ⟨rfl, dedupFirstAux_nodup [] _, dedupFirstAux_sublist [] _, fun c => ?_, rfl⟩
  rw [metricsSelect, dedupFirst, dedupFirstAux_mem]
  simp

/-- C7: `_build_sql` is pure given the builder state — a second call with no
intervening mutation returns the same SQL text and a parameter list with the
same contents — and the returned parameter list is a freshly allocated copy:
its reference differs from the internal `_params` reference, and writing to
it leaves the internal list unchanged. -/
theorem build_sql_pure_fresh_copy (table : String) (wp : List String)
    (sc : Option (List String)) (h : Heap) (rp : Nat) (hrp : rp < h.cells.length) :
    (buildSqlHeap table wp sc h rp).2.2
        = (buildSqlHeap table wp sc (buildSqlHeap table wp sc h rp).1 rp).2.2 ∧
    (buildSqlHeap table wp sc h rp).1.read (buildSqlHeap table wp sc h rp).2.1 = h.read rp ∧
    ((buildSqlHeap table wp sc (buildSqlHeap table wp sc h rp).1 rp).1.read
        (buildSqlHeap table wp sc (buildSqlHeap table wp sc h rp).1 rp).2.1) = h.read rp ∧
    (buildSqlHeap table wp sc h rp).2.1 ≠ rp ∧
    ∀ v, ((buildSqlHeap table wp sc h rp).1.write ((buildSqlHeap table wp sc h rp).2.1) v).read rp
        = h.read rp := by
  have hh1 : (buildSqlHeap table wp sc h rp).1 = (h.alloc (h.read rp)).1 := rfl
  have hr1 : (buildSqlHeap table wp sc h rp).2.1 = h.cells.length := rfl
  refine ⟨rfl, heap_read_alloc h (h.read rp), ?_, ?_, ?_⟩
  · have e1 : (buildSqlHeap table wp sc (buildSqlHeap table wp sc h rp).1 rp).1.read
        (buildSqlHeap table wp sc (buildSqlHeap table wp sc h rp).1 rp).2.1
        = ((buildSqlHeap table wp sc h rp).1).read rp :=
      heap_read_alloc _ _
    have e2 : ((buildSqlHeap table wp sc h rp).1).read rp = h.read rp := by
      rw [hh1]
      exact heap_read_alloc_preserve h (h.read rp) rp hrp
    exact e1.trans e2
  · rw [hr1]
    omega
  · intro v
    have hne : h.cells.length ≠ rp := by omega
    calc ((buildSqlHeap table wp sc h rp).1.write ((buildSqlHeap table wp sc h rp).2.1) v).read rp
        = ((h.alloc (h.read rp)).1.write h.cells.length v).read rp := rfl
      _ = (h.alloc (h.read rp)).1.read rp := heap_read_write_ne _ _ _ _ hne
      _ = h.read rp := heap_read_alloc_preserve h (h.read rp) rp hrp

/-- Witness for C7 on a one-cell heap: the two calls agree, the copy holds
the parameter contents, the fresh reference differs from the internal one,
and writing the copy leaves the internal cell unchanged. -/
theorem build_sql_pure_fresh_copy_witness :
    (buildSqlHeap "raw" [] none ⟨[[PyVal.scalar (PyScalar.int 1)]]⟩ 0).1.read
        (buildSqlHeap "raw" [] none ⟨[[PyVal.scalar (PyScalar.int 1)]]⟩ 0).2.1
      = [PyVal.scalar (PyScalar.int 1)] ∧
    (buildSqlHeap "raw" [] none ⟨[[PyVal.scalar (PyScalar.int 1)]]⟩ 0).2.1 ≠ 0 ∧
    ((buildSqlHeap "raw" [] none ⟨[[PyVal.scalar (PyScalar.int 1)]]⟩ 0).1.write
        ((buildSqlHeap "raw" [] none ⟨[[PyVal.scalar (PyScalar.int 1)]]⟩ 0).2.1)
        [PyVal.scalar (PyScalar.int 99)]).read 0
      = [PyVal.scalar (PyScalar.int 1)] := by
  have h := build_sql_pure_fresh_copy "raw" [] none ⟨[[PyVal.scalar (PyScalar.int 1)]]⟩ 0
    (by decide)
  exact ⟨h.2.1, h.2.2.2.1, h.2.2.2.2 [PyVal.scalar (PyScalar.int 99)]⟩

/-- C8: a reset builder builds exactly
`SELECT * FROM {quoted table} WHERE 1=1` with an empty parameter list. -/
theorem reset_build_select_all (st : BState) (table : String) :
    buildSql table (resetState st) = ("SELECT * FROM " ++ quoteIdent table ++ " WHERE 1=1", []) := by
  have h1 : "SELECT " ++ "*" ++ " FROM " = "SELECT * FROM " := rfl
  have h2 : " WHERE " ++ "1=1" = " WHERE 1=1" := rfl
  show ("SELECT " ++ "*" ++ " FROM " ++ quoteIdent table ++ " WHERE " ++ "1=1", ([] : List PyVal))
    = ("SELECT * FROM " ++ quoteIdent table ++ " WHERE 1=1", ([] : List PyVal))
  rw [h1, String.append_assoc, h2]

/-- C9: identifier quoting is total and pure: for every input string the
result is the input with each embedded double quote doubled, wrapped in
double-quote delimiters; the empty string gives the empty quoted
identifier. -/
theorem quote_ident_total_doubling :
    (∀ s : String, (quoteIdent s).data
        = '"' :: ((s.data.map (fun c => if c = '"' then ['"', '"'] else [c])).flatten ++ ['"'])) ∧
    quoteIdent "" = "\"\"" :=
  ⟨fun s => by rw [quoteIdent_data, escQuote_eq_flatten], by decide⟩

/-- C10: a filter value that is not a tuple of length exactly two — e.g. a
longer tuple or a two-element Python list — takes the equality branch: the
call appends `{quoted col} = ?`, binds the whole value as the parameter, and
performs no operator validation and no raise. -/
theorem filter_non_tuple2_equality (st : BState) (col : String) (val : PyVal)
    (h : ∀ op v, val ≠ PyVal.tuple [op, v]) :
    filterEntry st col val
      = .ok ⟨st.where_parts ++ [quoteIdent col ++ " = ?"],
             st.params ++ [val], st.select_cols⟩ :=
  filterEntry_default st col val h

/-- Witness for C10: a length-3 tuple and a two-element list both take the
equality branch, binding the whole value. -/
theorem filter_non_tuple2_equality_witness :
    filterEntry initState "Age" (PyVal.tuple [PyScalar.str "<", PyScalar.int 5, PyScalar.int 6])
      = .ok ⟨[quoteIdent "Age" ++ " = ?"],
             [PyVal.tuple [PyScalar.str "<", PyScalar.int 5, PyScalar.int 6]], none⟩ ∧
    filterEntry initState "Age" (PyVal.list [PyScalar.str "<", PyScalar.int 5])
      = .ok ⟨[quoteIdent "Age" ++ " = ?"],
             [PyVal.list [PyScalar.str "<", PyScalar.int 5]], none⟩ :=
  ⟨filter_non_tuple2_equality initState "Age" _ (by intro op v hcontra; simp at hcontra),
   filter_non_tuple2_equality initState "Age" _ (by intro op v hcontra; simp at hcontra)⟩

end CohortStore

namespace EtlWrappers

open CohortStore (PyVal PyScalar)

/-- C6: upserting a batch keyed on the configured identifier columns leaves,
for a key carried by exactly one incoming row, exactly that incoming row in
the resulting table (delete-then-insert), while every stored row whose key
matches no incoming row is still present. -/
theorem upsert_key_semantics (id_cols : List String) (tbl incoming : List Row)
    (k newRow : Row)
    (hone : incoming.filter (fun i => keyMatch id_cols i k) = [newRow]) :
    (upsertRows id_cols tbl incoming).filter (fun r => keyMatch id_cols r k) = [newRow] ∧
    ∀ r ∈ tbl, (∀ i ∈ incoming, keyMatch id_cols r i = false) →
      r ∈ upsertRows id_cols tbl incoming := by
  have hnew : newRow ∈ incoming.filter (fun i => keyMatch id_cols i k) := by
    rw [hone]
    exact List.mem_singleton_self newRow
  have hnew_mem : newRow ∈ incoming := (List.mem_filter.mp hnew).1
  have hnew_key : keyMatch id_cols newRow k = true := (List.mem_filter.mp hnew).2
  constructor
  · rw [upsertRows, List.filter_append]
    have hsurv : (tbl.filter fun t => !(incoming.any fun i => keyMatch id_cols t i)).filter
        (fun r => keyMatch id_cols r k) = [] := by
      rw [List.filter_eq_nil_iff]
      intro r hr hk
      have hno : (!(incoming.any fun i => keyMatch id_cols r i)) = true :=
        (List.mem_filter.mp hr).2
      have hany : (incoming.any fun i => keyMatch id_cols r i) = false := by
        simpa using hno
      rw [List.any_eq_false] at hany
      exact hany newRow hnew_mem (keyMatch_trans id_cols r newRow k hk hnew_key)
    rw [hsurv, List.nil_append, hone]
  · intro r hr hno
    rw [upsertRows]
    refine List.mem_append_left _ (List.mem_filter.mpr ⟨hr, ?_⟩)
    have hany : (incoming.any fun i => keyMatch id_cols r i) = false := by
      rw [List.any_eq_false]
      intro i hi
      simp [hno i hi]
    simp [hany]

/-- Witness for C6: a two-row table, an incoming batch with one row sharing
the key `(ImagePatientID = P1, StudyName = A)` but a changed value; the
result holds exactly the incoming row for that key and still holds the
unrelated row. -/
theorem upsert_key_semantics_witness :
    (upsertRows DEFAULT_ID_COLS
        [[("Image/Patient ID", PyVal.scalar (PyScalar.str "P1")),
          ("Study Name", PyVal.scalar (PyScalar.str "A")),
          ("Liver Volume", PyVal.scalar (PyScalar.int 100))],
         [("Image/Patient ID", PyVal.scalar (PyScalar.str "P2")),
          ("Study Name", PyVal.scalar (PyScalar.str "A")),
          ("Liver Volume", PyVal.scalar (PyScalar.int 200))]]
        [[("Image/Patient ID", PyVal.scalar (PyScalar.str "P1")),
          ("Study Name", PyVal.scalar (PyScalar.str "A")),
          ("Liver Volume", PyVal.scalar (PyScalar.int 150))]]).filter
      (fun r => keyMatch DEFAULT_ID_COLS r
        [("Image/Patient ID", PyVal.scalar (PyScalar.str "P1")),
         ("Study Name", PyVal.scalar (PyScalar.str "A"))])
      = [[("Image/Patient ID", PyVal.scalar (PyScalar.str "P1")),
          ("Study Name", PyVal.scalar (PyScalar.str "A")),
          ("Liver Volume", PyVal.scalar (PyScalar.int 150))]] ∧
    [("Image/Patient ID", PyVal.scalar (PyScalar.str "P2")),
     ("Study Name", PyVal.scalar (PyScalar.str "A")),
     ("Liver Volume", PyVal.scalar (PyScalar.int 200))] ∈
      upsertRows DEFAULT_ID_COLS
        [[("Image/Patient ID", PyVal.scalar (PyScalar.str "P1")),
          ("Study Name", PyVal.scalar (PyScalar.str "A")),
          ("Liver Volume", PyVal.scalar (PyScalar.int 100))],
         [("Image/Patient ID", PyVal.scalar (PyScalar.str "P2")),
          ("Study Name", PyVal.scalar (PyScalar.str "A")),
          ("Liver Volume", PyVal.scalar (PyScalar.int 200))]]
        [[("Image/Patient ID", PyVal.scalar (PyScalar.str "P1")),
          ("Study Name", PyVal.scalar (PyScalar.str "A")),
          ("Liver Volume", PyVal.scalar (PyScalar.int 150))]] := by
  have h := upsert_key_semantics DEFAULT_ID_COLS
    [[("Image/Patient ID", PyVal.scalar (PyScalar.str "P1")),
      ("Study Name", PyVal.scalar (PyScalar.str "A")),
      ("Liver Volume", PyVal.scalar (PyScalar.int 100))],
     [("Image/Patient ID", PyVal.scalar (PyScalar.str "P2")),
      ("Study Name", PyVal.scalar (PyScalar.str "A")),
      ("Liver Volume", PyVal.scalar (PyScalar.int 200))]]
    [[("Image/Patient ID", PyVal.scalar (PyScalar.str "P1")),
      ("Study Name", PyVal.scalar (PyScalar.str "A")),
      ("Liver Volume", PyVal.scalar (PyScalar.int 150))]]
    [("Image/Patient ID", PyVal.scalar (PyScalar.str "P1")),
     ("Study Name", PyVal.scalar (PyScalar.str "A"))]
    [("Image/Patient ID", PyVal.scalar (PyScalar.str "P1")),
     ("Study Name", PyVal.scalar (PyScalar.str "A")),
     ("Liver Volume", PyVal.scalar (PyScalar.int 150))]
    (by decide)
  exact ⟨h.1, h.2 _ (by decide) (by decide)⟩

end EtlWrappers
